import Mathlib

/-!
Verification of the typeorm service layer of the odata-v4-server repository.

The development shallowly embeds the code of `TypedService`
(src/lib/typeorm/service.ts, service/controller for typeorm entities),
`ODataResult` (src/lib/result.ts) and the entity-controller registry of
src/lib/typeorm/controller.ts.  Asynchronous code is embedded as a
writer-over-except monad `Res`: every operation returns the ordered list of
observable effects it performed (repository calls, hook executions,
sub-service creations) together with either a value or the thrown error.
JavaScript values relevant to the claims are embedded as the inductive
`JsVal`; machine-level details (prototype chains, property enumeration order
beyond insertion order) are outside the claims and not modelled.
-/

/-- JavaScript runtime values, as far as the service layer inspects them:
`undefined`, `null`, booleans, numbers (with `NaN` separate), strings,
arrays and plain objects with insertion-ordered own properties. -/
inductive JsVal : Type where
  | undefinedV : JsVal
  | null : JsVal
  | bool : Bool → JsVal
  | num : Int → JsVal
  | nan : JsVal
  | str : String → JsVal
  | arr : List JsVal → JsVal
  | obj : List (String × JsVal) → JsVal

/-- Property read `v[name]`: own property of an object, `undefined` otherwise. -/
def JsVal.getProp (v : JsVal) (name : String) : JsVal :=
  match v with
  | .obj fields => (fields.lookup name).getD .undefinedV
  | _ => .undefinedV

/-- Replace or append one field of an insertion-ordered field list. -/
def JsVal.setField : List (String × JsVal) → String → JsVal → List (String × JsVal)
  | [], n, v => [(n, v)]
  | (k, w) :: rest, n, v =>
      if k = n then (k, v) :: rest else (k, w) :: JsVal.setField rest n v

/-- Property write `v[name] = val` (assignment on non-objects is a no-op). -/
def JsVal.setProp (v : JsVal) (name : String) (val : JsVal) : JsVal :=
  match v with
  | .obj fields => .obj (JsVal.setField fields name val)
  | other => other

/-- `Object.prototype.hasOwnProperty.call(v, name)`. -/
def JsVal.hasOwn (v : JsVal) (name : String) : Bool :=
  match v with
  | .obj fields => (fields.lookup name).isSome
  | _ => false

/-- newdash/lodash `isEmpty`: `undefined`/`null`, empty objects, empty arrays,
empty strings, and all numbers/booleans are empty. -/
def JsVal.isEmpty : JsVal → Bool
  | .undefinedV => true
  | .null => true
  | .obj fields => fields.isEmpty
  | .arr xs => xs.isEmpty
  | .str s => s.isEmpty
  | _ => true

/-- newdash `isArray`. -/
def JsVal.isArr : JsVal → Bool
  | .arr _ => true
  | _ => false

/-- The guard `key != undefined && key != null` fails exactly on these two
values (loose equality). -/
def JsVal.isNullish : JsVal → Bool
  | .undefinedV => true
  | .null => true
  | _ => false

/-- JavaScript truthiness. -/
def JsVal.truthy : JsVal → Bool
  | .undefinedV => false
  | .null => false
  | .nan => false
  | .bool b => b
  | .num n => n ≠ 0
  | .str s => s ≠ ""
  | .arr _ => true
  | .obj _ => true

/-- `typeof v == 'number'` (`NaN` is a number). -/
def JsVal.isNumber : JsVal → Bool
  | .num _ => true
  | .nan => true
  | _ => false

/-- String coercion, as used inside template literals.  Arrays are not
recursively rendered (no claim inspects the rendering of an array key). -/
def JsVal.display : JsVal → String
  | .undefinedV => "undefined"
  | .null => "null"
  | .bool true => "true"
  | .bool false => "false"
  | .num n => toString n
  | .nan => "NaN"
  | .str s => s
  | .arr _ => ""
  | .obj _ => "[object Object]"

/-- JavaScript `parseInt` restricted to base 10: skip whitespace, optional
sign, longest digit prefix; no digits gives `NaN`. -/
def jsParseInt (s : String) : JsVal :=
  let t := s.trim
  let (sign, rest) :=
    if t.startsWith "-" then ((-1 : Int), t.drop 1)
    else if t.startsWith "+" then ((1 : Int), t.drop 1)
    else ((1 : Int), t)
  let ds := rest.toList.takeWhile Char.isDigit
  if ds.isEmpty then .nan
  else .num (sign * (Int.ofNat ((String.mk ds).toNat?.getD 0)))

/-- Errors thrown by the service layer: the two declared kinds plus plain
JavaScript errors (used by the registry and available to user hooks). -/
inductive Err : Type where
  | resourceNotFound : String → Err
  | serverInternal : String → Err
  | jsError : String → Err

/-- The five hook kinds of the hook registry (module `./hooks`, whose
enumeration `HookType` is re-exported by the typeorm layer; the member names
are those used by `TypedService`). -/
inductive HookType : Type where
  | beforeCreate | afterLoad | beforeUpdate | beforeDelete | afterSave
deriving DecidableEq, BEq

/-- Observable effects of one service operation, in execution order. -/
inductive Ev : Type where
  | repoFindOne : JsVal → Ev
  | repoQuery : String → Ev
  | repoFindByIds : Ev
  | repoFindAll : Ev
  | repoInsert : Ev
  | repoSaveEntity : Ev
  | repoUpdate : JsVal → Ev
  | repoDelete : JsVal → Ev
  | hookExec : HookType → Nat → Ev
  | subCreate : String → Ev

/-- Result of running an async service method: the trace of effects it
performed (also on the error path) and either the resolved value or the
thrown/rejected error. -/
def Res (α : Type) : Type := List Ev × Except Err α

namespace Res

def ok {α : Type} (a : α) : Res α := ([], Except.ok a)

def fail {α : Type} (e : Err) : Res α := ([], Except.error e)

def emit (ev : Ev) : Res Unit := ([ev], Except.ok ())

/-- Sequencing (`await x; f`): on error the continuation never runs; on
success the traces concatenate. -/
def bind {α β : Type} (x : Res α) (f : α → Res β) : Res β :=
  match x with
  | (t, Except.error e) => (t, Except.error e)
  | (t, Except.ok a) => (t ++ (f a).1, (f a).2)

@[simp] theorem bind_ok {α β : Type} (a : α) (f : α → Res β) :
    bind (ok a) f = f a := by
  simp [bind, ok]

@[simp] theorem bind_fail {α β : Type} (e : Err) (f : α → Res β) :
    bind (fail e) f = fail e := by
  simp [bind, fail]

@[simp] theorem bind_emit {α : Type} (ev : Ev) (f : Unit → Res α) :
    bind (emit ev) f = (ev :: (f ()).1, (f ()).2) := by
  simp [bind, emit]

theorem bind_fst {α β : Type} (x : Res α) (f : α → Res β) :
    (bind x f).1 = x.1 ++ (match x.2 with
      | Except.ok a => (f a).1
      | Except.error _ => []) := by
  rcases x with ⟨t, r⟩
  cases r <;> simp [bind]

theorem bind_eq_ok {α β : Type} (x : Res α) (f : α → Res β) (t : List Ev) (a : α)
    (hx : x = (t, Except.ok a)) :
    bind x f = (t ++ (f a).1, (f a).2) := by
  subst hx; simp [bind]

theorem bind_eq_fail {α β : Type} (x : Res α) (f : α → Res β) (t : List Ev) (e : Err)
    (hx : x = (t, Except.error e)) :
    bind x f = (t, Except.error e) := by
  subst hx; simp [bind]

end Res

/-- The mutable hook context assembled by `TypedService._executeHooks` and
passed to every hook.  `txContext` abstracts the `TransactionContext` object;
`hasGetService` records whether the `getService` back-reference is bound. -/
structure HookContext : Type where
  hookType : Option HookType
  entityType : Option String
  data : Option JsVal
  key : Option JsVal
  txContext : Option Nat
  hasGetService : Bool

/-- A registered hook: its executor receives the assembled context and
resolves or rejects.  Modelled from the spec: the hook registry module
(`./hooks`, `findHooks`/`HookProcessor`) is not under src/; a hook is a
before/after callback invoked around CRUD operations. -/
structure Hook : Type where
  execute : HookContext → Except Err Unit

/-- Navigation relation metadata (`@ODataNavigation` options): relation kind,
lazily-resolved target entity (here its name) and the configured foreign key
property name. -/
inductive NavType : Type where
  | OneToMany | ManyToOne | OneToOne
deriving DecidableEq

structure NavOptions : Type where
  navType : NavType
  entity : String
  foreignKey : String

/-- Static/reflective environment of one `TypedService` instance: everything
the service obtains through decorators, the connection, the repository and
sibling services.  `hookEvents` is the `HookEvents` list of the hooks module
(modelled from the spec: hooks tagged as events are fire-and-forget; the list
membership itself is what `_executeHooks` consults).  `buildSQL` is the
DB helper output (queryStatement, countStatement) for a parsed query.
`serviceCreate` abstracts `service.create` of the sibling service resolved
for a navigation target entity. -/
structure Env : Type where
  entityTypeName : String
  keyName : String
  hookEvents : List HookType
  findHooks : HookType → List Hook
  navigations : List (String × NavOptions)
  serviceCreate : String → JsVal → Except Err JsVal
  targetKeyName : String → String
  hasField : String → String → Bool
  repoFindOneF : JsVal → JsVal
  repoFindAllF : List JsVal
  runQuery : String → List JsVal
  findByIdsF : List JsVal → List JsVal
  buildSQL : String → String × Option String
  transform : JsVal → JsVal
  repoCreate : JsVal → JsVal

/-- Lift a plain `Except` call (no own trace) into `Res`. -/
def Res.liftE {α : Type} (x : Except Err α) : Res α := ([], x)

/-- `if (ctx.entityType == undefined) ctx.entityType = this._getEntityType()`. -/
def TypedService.ctxWithEntityType (env : Env) (ctx : HookContext) : HookContext :=
  if ctx.entityType.isNone then { ctx with entityType := some env.entityTypeName } else ctx

/-- The remaining context normalization of `_executeHooks` once the hook type
is known: bind `getService` if absent, and for events drop the transaction
context (`delete ctx.txContext`). -/
def TypedService.ctxForDispatch (env : Env) (ht : HookType) (ctx : HookContext) : HookContext :=
  let c := if ctx.hasGetService then ctx else { ctx with hasGetService := true }
  if env.hookEvents.contains ht then { c with txContext := none } else c

/-- The dispatch loop of `_executeHooks`: events are triggered without being
awaited and a rejection is caught (`.catch(console.error)`), so the loop
continues and nothing propagates; hooks are awaited one by one and a thrown
error propagates immediately. -/
def TypedService.execHookLoop (isEvent : Bool) (ht : HookType) (ctx : HookContext) :
    List Hook → Nat → Res Unit
  | [], _ => Res.ok ()
  | hook :: rest, idx =>
      if isEvent then
        Res.bind (Res.emit (.hookExec ht idx)) fun _ =>
          TypedService.execHookLoop isEvent ht ctx rest (idx + 1)
      else
        Res.bind (Res.emit (.hookExec ht idx)) fun _ =>
          match hook.execute ctx with
          | Except.ok _ => TypedService.execHookLoop isEvent ht ctx rest (idx + 1)
          | Except.error e => Res.fail e

/-- `TypedService._executeHooks`: default the entity type, reject a missing
hook type, normalize the context and dispatch. -/
def TypedService.executeHooks (env : Env) (ctx : HookContext) : Res Unit :=
  match (TypedService.ctxWithEntityType env ctx).hookType with
  | none => Res.fail (.serverInternal "Hook Type must be specify by controller")
  | some ht =>
      TypedService.execHookLoop (env.hookEvents.contains ht) ht
        (TypedService.ctxForDispatch env ht (TypedService.ctxWithEntityType env ctx))
        (env.findHooks ht) 0

/-- `TypedService.findOne`. -/
def TypedService.findOne (env : Env) (key : JsVal) (tx : Option Nat) : Res JsVal :=
  if key.isNullish = false then
    -- with key
    Res.bind (Res.emit (.repoFindOne key)) fun _ =>
    let data := env.repoFindOneF key
    if data.isEmpty then
      Res.fail (.resourceNotFound
        ("Resource not found: " ++ env.entityTypeName ++ "[" ++ key.display ++ "]"))
    else
      Res.bind (TypedService.executeHooks env
        { hookType := some .afterLoad, entityType := some env.entityTypeName,
          data := some data, key := none, txContext := tx, hasGetService := false }) fun _ =>
      Res.ok data
  else
    -- without key, generally in navigation
    Res.ok (JsVal.obj [])

/-- `let [{ total }] = await repo.query(countStatement)` followed by the
string-total normalization: for mysql (and maybe other drivers) the total
comes back as a string and is `parseInt`-ed. -/
def totalValue (row : JsVal) : JsVal :=
  match row.getProp "total" with
  | .str s => jsParseInt s
  | v => v

/-- The inline-count block of `TypedService.find`: when the DB helper produced
a (truthy, i.e. non-empty) count statement, run it, destructure the first
row's `total` and parse a string total to an integer. -/
def TypedService.inlineCountOf (env : Env) (countStatement : Option String) : Res (Option JsVal) :=
  match countStatement with
  | some cs =>
      if cs = "" then Res.ok none
      else
        Res.bind (Res.emit (.repoQuery cs)) fun _ =>
        match (env.runQuery cs).head? with
        | none => Res.fail (.jsError "TypeError: cannot destructure count result")
        | some row => Res.ok (some (totalValue row))
  | none => Res.ok none

/-- The data phase of `TypedService.find`: with a query, build SQL through the
DB helper, run the id query, reload the rows by id through the repository and
optionally attach the inline count; without one, `repo.find()`. -/
def TypedService.findData (env : Env) (query : Option String) :
    Res (List JsVal × Option JsVal) :=
  match query with
  | some q =>
      let (queryStatement, countStatement) := env.buildSQL q
      Res.bind (Res.emit (.repoQuery queryStatement)) fun _ =>
      let rows := env.runQuery queryStatement
      Res.bind (Res.emit .repoFindByIds) fun _ =>
      let data := env.findByIdsF (rows.map (fun item => item.getProp "id"))
      Res.bind (TypedService.inlineCountOf env countStatement) fun ic =>
      Res.ok (data, ic)
  | none =>
      Res.bind (Res.emit .repoFindAll) fun _ =>
      Res.ok (env.repoFindAllF, none)

/-- Result array of `find`: the items together with the `inlinecount`
property possibly attached to the array object. -/
structure FindResult : Type where
  items : List JsVal
  inlinecount : Option JsVal

/-- The guarded afterLoad hook execution at the end of `find`
(`if (data.length > 0) await this._executeHooks(...)`). -/
def TypedService.findHookCall (env : Env) (data : List JsVal) (tx : Option Nat) : Res Unit :=
  if data.length > 0 then
    TypedService.executeHooks env
      { hookType := some .afterLoad, entityType := none,
        data := some (.arr data), key := none, txContext := tx, hasGetService := false }
  else Res.ok ()

/-- `TypedService.find` (the query argument is the already-parsed AST token,
abstracted to the string the DB helper consumes; the string/`ODataQueryParam`
normalization through the external parser is identity at this level). -/
def TypedService.find (env : Env) (query : Option String) (tx : Option Nat) : Res FindResult :=
  Res.bind (TypedService.findData env query) fun dic =>
  Res.bind (TypedService.findHookCall env dic.1 tx) fun _ =>
  Res.ok { items := dic.1, inlinecount := dic.2 }

/-- The `Promise.all(navigationData.map(...))` of the OneToMany branch of
`_deepInsert`, modelled as left-to-right sequential resolution: each item
gets the parent key as its foreign key and is created by the target service. -/
def TypedService.deepCreateItems (env : Env) (entityName : String) (fkName : String)
    (fkValue : JsVal) : List JsVal → Res (List JsVal)
  | [] => Res.ok []
  | item :: rest =>
      let item2 := item.setProp fkName fkValue
      Res.bind (Res.emit (.subCreate entityName)) fun _ =>
      Res.bind (Res.liftE (env.serviceCreate entityName item2)) fun created =>
      Res.bind (TypedService.deepCreateItems env entityName fkName fkValue rest) fun createdRest =>
      Res.ok (created :: createdRest)

/-- One iteration of the `_deepInsert` loop for a navigation property present
in the body.  `OneToOne` stands for the `default` switch branch (any relation
other than OneToMany/ManyToOne). -/
def TypedService.deepInsertStep (env : Env) (acc : Bool × JsVal) (nav : String × NavOptions) :
    Res (Bool × JsVal) :=
  let reSaveRequired := acc.1
  let body := acc.2
  let navigationName := nav.1
  let options := nav.2
  if body.hasOwn navigationName then
    let navigationData := body.getProp navigationName
    let fkName := options.foreignKey
    let targetInstanceKeyName := env.targetKeyName options.entity
    match options.navType with
    | .OneToMany =>
        match navigationData with
        | .arr items =>
            Res.bind (TypedService.deepCreateItems env options.entity fkName
              (body.getProp env.keyName) items) fun created =>
            Res.ok (reSaveRequired, body.setProp navigationName (.arr created))
        | _ =>
            -- for one-to-many relationship, must provide an array
            Res.fail (.serverInternal
              ("navigation property [" ++ navigationName ++ "] must be an array!"))
    | .ManyToOne =>
        Res.bind (Res.emit (.subCreate options.entity)) fun _ =>
        Res.bind (Res.liftE (env.serviceCreate options.entity navigationData)) fun createdDeepInstance =>
        let body := body.setProp navigationName createdDeepInstance
        let body := body.setProp fkName (createdDeepInstance.getProp targetInstanceKeyName)
        Res.ok (true, body)
    | .OneToOne =>
        Res.bind (Res.emit (.subCreate options.entity)) fun _ =>
        Res.bind (Res.liftE (env.serviceCreate options.entity navigationData)) fun createdDeepInstance2 =>
        let body := body.setProp navigationName createdDeepInstance2
        if env.hasField env.entityTypeName fkName then
          Res.ok (true, body.setProp fkName (createdDeepInstance2.getProp targetInstanceKeyName))
        else if env.hasField options.entity fkName then
          -- mutation of the created instance aliases body[navigationName]
          let created2 := createdDeepInstance2.setProp fkName (body.getProp env.keyName)
          Res.ok (reSaveRequired, body.setProp navigationName created2)
        else
          Res.fail (.serverInternal
            ("fk " ++ fkName ++ " not existed on entity " ++ env.entityTypeName
              ++ " or " ++ options.entity))
  else Res.ok acc

/-- The navigation loop of `_deepInsert` (iteration in declaration order). -/
def TypedService.deepInsertLoop (env : Env) :
    List (String × NavOptions) → Bool × JsVal → Res (Bool × JsVal)
  | [], acc => Res.ok acc
  | nav :: rest, acc =>
      Res.bind (TypedService.deepInsertStep env acc nav) fun acc2 =>
      TypedService.deepInsertLoop env rest acc2

/-- `TypedService._deepInsert`: returns whether a re-save is required and the
(mutated) body. -/
def TypedService.deepInsert (env : Env) (body : JsVal) : Res (Bool × JsVal) :=
  TypedService.deepInsertLoop env env.navigations (false, body)

/-- `TypedService.create`: transform the payload, build the entity instance,
run beforeCreate hooks, INSERT, deep-insert navigations, re-save if required,
run afterSave hooks and return the instance. -/
def TypedService.create (env : Env) (body : JsVal) (tx : Option Nat) : Res JsVal :=
  let body2 := env.transform body
  let inst := env.repoCreate body2
  Res.bind (TypedService.executeHooks env
    { hookType := some .beforeCreate, entityType := none,
      data := some inst, key := none, txContext := tx, hasGetService := false }) fun _ =>
  Res.bind (Res.emit .repoInsert) fun _ =>
  Res.bind (TypedService.deepInsert env inst) fun rb =>
  Res.bind (if rb.1 then Res.emit .repoSaveEntity else Res.ok ()) fun _ =>
  Res.bind (TypedService.executeHooks env
    { hookType := some .afterSave, entityType := none,
      data := some rb.2, key := none, txContext := tx, hasGetService := false }) fun _ =>
  Res.ok rb.2

/-- `TypedService.update`. -/
def TypedService.update (env : Env) (key : JsVal) (body : JsVal) (tx : Option Nat) : Res Unit :=
  let body2 := env.transform body
  let inst := env.repoCreate body2
  Res.bind (TypedService.executeHooks env
    { hookType := some .beforeUpdate, entityType := none,
      data := some inst, key := some key, txContext := tx, hasGetService := false }) fun _ =>
  Res.bind (Res.emit (.repoUpdate key)) fun _ =>
  Res.bind (TypedService.executeHooks env
    { hookType := some .afterSave, entityType := none,
      data := some inst, key := some key, txContext := tx, hasGetService := false }) fun _ =>
  Res.ok ()

/-- `TypedService.delete`. -/
def TypedService.delete (env : Env) (key : JsVal) (tx : Option Nat) : Res Unit :=
  Res.bind (TypedService.executeHooks env
    { hookType := some .beforeDelete, entityType := none,
      data := none, key := some key, txContext := tx, hasGetService := false }) fun _ =>
  Res.bind (Res.emit (.repoDelete key)) fun _ =>
  Res.bind (TypedService.executeHooks env
    { hookType := some .afterSave, entityType := none,
      data := none, key := some key, txContext := tx, hasGetService := false }) fun _ =>
  Res.ok ()

/-- `TypedService.save` (create or update): with a truthy key whose entity
exists, delegate to `update` (which resolves with no content, i.e.
`undefined`); otherwise delegate to `create`. -/
def TypedService.save (env : Env) (key : JsVal) (body : JsVal) (tx : Option Nat) : Res JsVal :=
  if key.truthy then
    Res.bind (Res.emit (.repoFindOne key)) fun _ =>
    let item := env.repoFindOneF key
    if item.truthy then
      Res.bind (TypedService.update env key body tx) fun _ => Res.ok JsVal.undefinedV
    else
      TypedService.create env body tx
  else
    TypedService.create env body tx

/-- Argument of `ODataResult.Ok`, discriminated the way the code does with
`Array.isArray`: an array result carries its elements together with the
optional `inlinecount` expando property attached by `find`; anything else is
a plain value.  (The promise-unwrapping prologue is identity on values.) -/
inductive OkInput : Type where
  | array : List JsVal → Option JsVal → OkInput
  | nonArray : JsVal → OkInput

/-- Body shapes an `ODataResult` can carry after `Ok`: the array wrapper
`{ value: [...], '@odata.count'?: n }` — where the wrapped array may still
carry a residual non-numeric `inlinecount` property — or a bare value. -/
inductive OkBody : Type where
  | wrapped : List JsVal → Option JsVal → Option JsVal → OkBody
  | plain : JsVal → OkBody

/-- The `ODataResult` instance fields the claims observe: status code, body
and content type (`elementType` reflection is not modelled). -/
structure ODataResultM : Type where
  statusCode : Nat
  contentType : Option String
  body : Option OkBody

/-- The `ODataResult` constructor: the body and the content type (defaulted
to `application/json`) are only assigned when the result is defined. -/
def ODataResult.make (statusCode : Nat) (contentType : Option String)
    (result : Option OkBody) : ODataResultM :=
  { statusCode := statusCode,
    contentType := if result.isSome then some (contentType.getD "application/json") else none,
    body := result }

/-- `typeof (result as any).inlinecount == 'number'`. -/
def inlinecountIsNumber : Option JsVal → Bool
  | some v => v.isNumber
  | none => false

/-- `ODataResult.Ok`: wrap an array result as `{ value: ... }`, moving a
numeric `inlinecount` property out of the array into `'@odata.count'`; a
non-array result passes through (the local `inlinecount` variable is still
undefined there, so no count is ever attached on that path). -/
def ODataResult.Ok (result : OkInput) (contentType : Option String) : ODataResultM :=
  match result with
  | .array elems ic =>
      if inlinecountIsNumber ic then
        ODataResult.make 200 contentType (some (.wrapped elems none ic))
      else
        ODataResult.make 200 contentType (some (.wrapped elems ic none))
  | .nonArray v =>
      ODataResult.make 200 contentType
        (match v with
          | .undefinedV => none
          | w => some (.plain w))

/-- The module-level `entityControllers` map of the typeorm controller file,
keyed by entity (classes abstracted to names, insertion-ordered like a JS
`Map`). -/
structure Registry : Type where
  entries : List (String × String)

/-- `registerController(entity, controller)`. -/
def registerController (reg : Registry) (entity : String) (controllerName : String) :
    Except Err Registry :=
  if (reg.entries.lookup entity).isSome then
    Except.error (.jsError "the controller has been generated for entity. (one entity - one controller)")
  else
    Except.ok { entries := reg.entries ++ [(entity, controllerName)] }

/-- `getEntityController(entity)`: look the controller up and return
`getControllerInstance` of it.  `instanceOf` abstracts
`getControllerInstance` (defined in the base controller module, outside the
typeorm layer): it maps a (possibly absent) controller to its singleton
instance. -/
def getEntityController (instanceOf : Option String → JsVal) (reg : Registry)
    (entity : String) : JsVal :=
  instanceOf (reg.entries.lookup entity)

/-- `precedes p q t`: in trace `t`, every event satisfying `p` happens
strictly before every event satisfying `q`. -/
def precedes (p q : Ev → Prop) (t : List Ev) : Prop :=
  ∀ i j (hi : i < t.length) (hj : j < t.length),
    p (t.get ⟨i, hi⟩) → q (t.get ⟨j, hj⟩) → i < j

/-- If the first block contains no `q`-event and the second block contains no
`p`-event, then all `p`-events precede all `q`-events. -/
theorem precedes_of_append {p q : Ev → Prop} {a b : List Ev}
    (ha : ∀ e ∈ a, ¬ q e) (hb : ∀ e ∈ b, ¬ p e) : precedes p q (a ++ b) := by
  intro i j hi hj hp hq
  rw [List.get_eq_getElem] at hp hq
  by_cases hia : i < a.length
  · by_cases hja : j < a.length
    · rw [List.getElem_append_left hja] at hq
      exact absurd hq (ha _ (List.getElem_mem hja))
    · omega
  · rw [List.getElem_append_right (Nat.le_of_not_lt hia)] at hp
    exact absurd hp (hb _ (List.getElem_mem _))

/-- Every `p`-event precedes every `q`-event whenever there is no `q`-event. -/
theorem precedes_of_not_right {p q : Ev → Prop} {t : List Ev}
    (h : ∀ e ∈ t, ¬ q e) : precedes p q t := by
  intro i j hi hj hp hq
  exact absurd hq (h _ (t.get_mem _ _))

/-- Every `p`-event precedes every `q`-event whenever there is no `p`-event. -/
theorem precedes_of_not_left {p q : Ev → Prop} {t : List Ev}
    (h : ∀ e ∈ t, ¬ p e) : precedes p q t := by
  intro i j hi hj hp hq
  exact absurd hp (h _ (t.get_mem _ _))

/-- Trace-membership property is preserved through sequencing. -/
theorem Res.forall_mem_bind {α β : Type} {P : Ev → Prop} {x : Res α} {f : α → Res β}
    (hx : ∀ e ∈ x.1, P e) (hf : ∀ a, ∀ e ∈ (f a).1, P e) :
    ∀ e ∈ (Res.bind x f).1, P e := by
  rcases x with ⟨t, r⟩
  cases r with
  | error err => simpa [Res.bind] using hx
  | ok a =>
      intro e he
      simp only [Res.bind, List.mem_append] at he
      rcases he with h | h
      · exact hx e h
      · exact hf a e h

/-- An event of `hookExec ht` form for some index. -/
def isHookEv (ht : HookType) (e : Ev) : Prop := ∃ i, e = Ev.hookExec ht i

/-- All events of the hook dispatch loop are `hookExec` events of the
dispatched hook type. -/
theorem TypedService.execHookLoop_events (b : Bool) (ht : HookType) (ctx : HookContext)
    (hooks : List Hook) (idx : Nat) :
    ∀ e ∈ (TypedService.execHookLoop b ht ctx hooks idx).1, isHookEv ht e := by
  induction hooks generalizing idx with
  | nil => simp [TypedService.execHookLoop, Res.ok]
  | cons hk rest ih =>
      intro e he
      cases b with
      | true =>
          simp [TypedService.execHookLoop, Res.bind_emit] at he
          rcases he with h1 | h1
          · exact ⟨idx, h1⟩
          · exact ih (idx + 1) e h1
      | false =>
          rcases hex : hk.execute ctx with err | u
          · simp [TypedService.execHookLoop, Res.bind_emit, hex, Res.fail] at he
            exact ⟨idx, he⟩
          · simp [TypedService.execHookLoop, Res.bind_emit, hex] at he
            rcases he with h1 | h1
            · exact ⟨idx, h1⟩
            · exact ih (idx + 1) e h1

/-- For an event-type dispatch the loop triggers every hook in registration
order and resolves regardless of the hook outcomes. -/
theorem TypedService.execHookLoop_event_trace (ht : HookType) (ctx : HookContext)
    (hooks : List Hook) (idx : Nat) :
    TypedService.execHookLoop true ht ctx hooks idx
      = ((List.range' idx hooks.length).map (Ev.hookExec ht), Except.ok ()) := by
  induction hooks generalizing idx with
  | nil => simp [TypedService.execHookLoop, Res.ok]
  | cons hk rest ih =>
      simp [TypedService.execHookLoop, Res.bind_emit, ih (idx + 1), List.range'_succ]

/-- For a non-event dispatch with all hooks succeeding, the loop awaits every
hook in registration order and resolves. -/
theorem TypedService.execHookLoop_all_ok (ht : HookType) (ctx : HookContext)
    (hooks : List Hook) (idx : Nat)
    (hok : ∀ h ∈ hooks, h.execute ctx = Except.ok ()) :
    TypedService.execHookLoop false ht ctx hooks idx
      = ((List.range' idx hooks.length).map (Ev.hookExec ht), Except.ok ()) := by
  induction hooks generalizing idx with
  | nil => simp [TypedService.execHookLoop, Res.ok]
  | cons hk rest ih =>
      have h1 : hk.execute ctx = Except.ok () := hok hk (List.mem_cons_self hk rest)
      have ih2 := ih (idx + 1) (fun h hm => hok h (List.mem_cons_of_mem hk hm))
      simp [TypedService.execHookLoop, Res.bind_emit, h1, ih2, List.range'_succ]

/-- For a non-event dispatch, the first rejecting hook stops the loop: the
hooks before it (and it itself) execute in order, its error propagates, and
no later hook runs. -/
theorem TypedService.execHookLoop_first_err (ht : HookType) (ctx : HookContext)
    (pre : List Hook) (hk : Hook) (post : List Hook) (idx : Nat) (e : Err)
    (hpre : ∀ h ∈ pre, h.execute ctx = Except.ok ())
    (herr : hk.execute ctx = Except.error e) :
    TypedService.execHookLoop false ht ctx (pre ++ hk :: post) idx
      = ((List.range' idx (pre.length + 1)).map (Ev.hookExec ht), Except.error e) := by
  induction pre generalizing idx with
  | nil =>
      simp [TypedService.execHookLoop, Res.bind_emit, herr, Res.fail, List.range'_succ]
  | cons h0 rest ih =>
      have h1 : h0.execute ctx = Except.ok () := hpre h0 (List.mem_cons_self h0 rest)
      have ih2 := ih (idx + 1) (fun h hm => hpre h (List.mem_cons_of_mem h0 hm))
      simp [TypedService.execHookLoop, Res.bind_emit, h1, ih2, List.range'_succ]

/-- The entity-type defaulting step does not touch the hook type. -/
theorem TypedService.ctxWithEntityType_hookType (env : Env) (ctx : HookContext) :
    (TypedService.ctxWithEntityType env ctx).hookType = ctx.hookType := by
  unfold TypedService.ctxWithEntityType
  split <;> rfl

/-- With a present hook type, `_executeHooks` is the dispatch loop over the
registered hooks on the normalized context. -/
theorem TypedService.executeHooks_eq_loop (env : Env) (ctx : HookContext) (ht : HookType)
    (hht : ctx.hookType = some ht) :
    TypedService.executeHooks env ctx
      = TypedService.execHookLoop (env.hookEvents.contains ht) ht
          (TypedService.ctxForDispatch env ht (TypedService.ctxWithEntityType env ctx))
          (env.findHooks ht) 0 := by
  have h1 : (TypedService.ctxWithEntityType env ctx).hookType = some ht := by
    rw [TypedService.ctxWithEntityType_hookType, hht]
  simp only [TypedService.executeHooks, h1]

/-- Every event of an `_executeHooks` call is a hook execution of the
requested hook type. -/
theorem TypedService.executeHooks_events (env : Env) (ctx : HookContext) (ht : HookType)
    (hht : ctx.hookType = some ht) :
    ∀ e ∈ (TypedService.executeHooks env ctx).1, isHookEv ht e := by
  rw [TypedService.executeHooks_eq_loop env ctx ht hht]
  exact TypedService.execHookLoop_events _ _ _ _ _

/-- A hook with a constant outcome, for concrete instantiations. -/
def sampleHook (r : Except Err Unit) : Hook := ⟨fun _ => r⟩

/-- A small concrete service environment (a `Teacher`-like entity with one
navigation, one rejecting afterSave event hook and one succeeding hook of
every other type), used to instantiate the theorems. -/
def env0 : Env :=
  { entityTypeName := "Teacher"
    keyName := "tid"
    hookEvents := [HookType.afterSave]
    findHooks := fun ht =>
      if ht = HookType.afterSave then
        [sampleHook (Except.error (.jsError "boom")), sampleHook (Except.ok ())]
      else [sampleHook (Except.ok ())]
    navigations := [("profile", { navType := .OneToOne, entity := "Profile", foreignKey := "profileId" })]
    serviceCreate := fun _ b => Except.ok b
    targetKeyName := fun _ => "id"
    hasField := fun _ _ => false
    repoFindOneF := fun k => if k.truthy then JsVal.obj [("tid", k)] else JsVal.undefinedV
    repoFindAllF := []
    runQuery := fun _ => [JsVal.obj [("id", JsVal.num 1), ("total", JsVal.str "42")]]
    findByIdsF := fun ids => ids.map (fun i => JsVal.obj [("id", i)])
    buildSQL := fun q => ("select " ++ q, some ("count " ++ q))
    transform := fun b => b
    repoCreate := fun b => b }

/-- **C6**: a hook context without a hook type makes `_executeHooks` throw a
`ServerInternalError` with message 'Hook Type must be specify by controller',
and no hook executes (the trace is empty). -/
theorem executeHooks_missing_hook_type (env : Env) (ctx : HookContext)
    (h : ctx.hookType = none) :
    TypedService.executeHooks env ctx
      = ([], Except.error (Err.serverInternal "Hook Type must be specify by controller")) := by
  have h1 : (TypedService.ctxWithEntityType env ctx).hookType = none := by
    rw [TypedService.ctxWithEntityType_hookType, h]
  simp only [TypedService.executeHooks, h1]
  rfl

/-- Witness for **C6** at a concrete context. -/
theorem executeHooks_missing_hook_type_witness :
    TypedService.executeHooks env0
      { hookType := none, entityType := none, data := none, key := none,
        txContext := none, hasGetService := false }
      = ([], Except.error (Err.serverInternal "Hook Type must be specify by controller")) :=
  executeHooks_missing_hook_type env0 _ rfl

/-- **C2**: hooks whose type is in `HookEvents` are dispatched fire-and-forget:
every one of them is triggered in registration order and the call resolves
regardless of any rejection (nothing propagates to the CRUD caller); hooks
whose type is not in `HookEvents` are awaited one by one in registration
order, and the first thrown error propagates (later hooks do not run). -/
theorem executeHooks_event_vs_hook (env : Env) (ctx : HookContext) (ht : HookType)
    (hht : ctx.hookType = some ht) :
    (env.hookEvents.contains ht = true →
      TypedService.executeHooks env ctx
        = ((List.range' 0 (env.findHooks ht).length).map (Ev.hookExec ht), Except.ok ()))
    ∧ (env.hookEvents.contains ht = false →
        ((∀ h ∈ env.findHooks ht,
            h.execute (TypedService.ctxForDispatch env ht (TypedService.ctxWithEntityType env ctx))
              = Except.ok ()) →
          TypedService.executeHooks env ctx
            = ((List.range' 0 (env.findHooks ht).length).map (Ev.hookExec ht), Except.ok ()))
        ∧ (∀ pre hk post e, env.findHooks ht = pre ++ hk :: post →
            (∀ h ∈ pre,
              h.execute (TypedService.ctxForDispatch env ht (TypedService.ctxWithEntityType env ctx))
                = Except.ok ()) →
            hk.execute (TypedService.ctxForDispatch env ht (TypedService.ctxWithEntityType env ctx))
              = Except.error e →
            TypedService.executeHooks env ctx
              = ((List.range' 0 (pre.length + 1)).map (Ev.hookExec ht), Except.error e))) := by
  refine ⟨fun hev => ?_, fun hnev => ⟨fun hok => ?_, fun pre hk post e hsplit hpre herr => ?_⟩⟩
  · rw [TypedService.executeHooks_eq_loop env ctx ht hht, hev]
    exact TypedService.execHookLoop_event_trace ht _ _ 0
  · rw [TypedService.executeHooks_eq_loop env ctx ht hht, hnev]
    exact TypedService.execHookLoop_all_ok ht _ _ 0 hok
  · rw [TypedService.executeHooks_eq_loop env ctx ht hht, hnev, hsplit]
    exact TypedService.execHookLoop_first_err ht _ pre hk post 0 e hpre herr

/-- Witness for **C2**: in `env0` an afterSave hook rejects, yet the event
dispatch triggers both hooks and resolves. -/
theorem executeHooks_event_vs_hook_witness :
    TypedService.executeHooks env0
      { hookType := some HookType.afterSave, entityType := none, data := none,
        key := none, txContext := none, hasGetService := false }
      = ((List.range' 0 (env0.findHooks HookType.afterSave).length).map
          (Ev.hookExec HookType.afterSave), Except.ok ()) :=
  (executeHooks_event_vs_hook env0 _ HookType.afterSave rfl).1 rfl

/-- **C9**: `findOne` with an undefined or null key resolves to `{}` without
touching the repository, executing any hook or throwing (empty trace,
successful empty-object result). -/
theorem findOne_without_key (env : Env) (key : JsVal) (tx : Option Nat)
    (hk : key.isNullish = true) :
    TypedService.findOne env key tx = ([], Except.ok (JsVal.obj [])) := by
  simp [TypedService.findOne, hk, Res.ok]

/-- Witness for **C9** at `undefined`. -/
theorem findOne_without_key_witness :
    TypedService.findOne env0 JsVal.undefinedV none = ([], Except.ok (JsVal.obj [])) :=
  findOne_without_key env0 JsVal.undefinedV none rfl

/-- **C1**: for a defined key, when the repository lookup is empty `findOne`
throws `ResourceNotFoundError`; when an entity is found, `findOne` resolves
with it after the afterLoad hooks ran (the hook trace sits between the
repository read and the successful return). -/
theorem findOne_with_key (env : Env) (key : JsVal) (tx : Option Nat)
    (hk : key.isNullish = false) :
    ((env.repoFindOneF key).isEmpty = true →
      TypedService.findOne env key tx
        = ([Ev.repoFindOne key],
           Except.error (Err.resourceNotFound
             ("Resource not found: " ++ env.entityTypeName ++ "[" ++ key.display ++ "]"))))
    ∧ (∀ t, (env.repoFindOneF key).isEmpty = false →
        TypedService.executeHooks env
          { hookType := some HookType.afterLoad, entityType := some env.entityTypeName,
            data := some (env.repoFindOneF key), key := none, txContext := tx,
            hasGetService := false } = (t, Except.ok ()) →
        TypedService.findOne env key tx
          = (Ev.repoFindOne key :: t, Except.ok (env.repoFindOneF key))) := by
  constructor
  · intro hempty
    simp [TypedService.findOne, hk, hempty, Res.fail, Res.emit, Res.bind]
  · intro t hnonempty hhooks
    simp [TypedService.findOne, hk, hnonempty, hhooks, Res.ok, Res.emit, Res.bind]

/-- Witness for **C1**: both branches at concrete keys in `env0` (key 1 is
found and returned after the afterLoad hook, key 0 is missing and raises the
not-found error). -/
theorem findOne_with_key_witness :
    (TypedService.findOne env0 (JsVal.num 1) none
      = ([Ev.repoFindOne (JsVal.num 1), Ev.hookExec HookType.afterLoad 0],
         Except.ok (JsVal.obj [("tid", JsVal.num 1)])))
    ∧ (TypedService.findOne env0 (JsVal.num 0) none
      = ([Ev.repoFindOne (JsVal.num 0)],
         Except.error (Err.resourceNotFound "Resource not found: Teacher[0]"))) := by
  constructor
  · exact (findOne_with_key env0 (JsVal.num 1) none rfl).2
      [Ev.hookExec HookType.afterLoad 0] rfl rfl
  · have h := (findOne_with_key env0 (JsVal.num 0) none rfl).1 rfl
    simpa using h

/-- Sequencing with a pure continuation only maps the result. -/
theorem Res.bind_map_ok {α : Type} (x : Res Unit) (r : α) :
    Res.bind x (fun _ => Res.ok r) = (x.1, Except.map (fun _ => r) x.2) := by
  rcases x with ⟨t, rr⟩
  cases rr <;> simp [Res.bind, Res.ok, Except.map]

/-- **C4**: `ODataResult.Ok` on an array result yields status code 200 and the
`{ value: ... }` envelope; `'@odata.count'` is carried (with the inlinecount
value) exactly when the array has a numeric `inlinecount` property, and in
that case the property is removed from the wrapped array — otherwise the
array keeps its (absent or non-numeric) `inlinecount` and no count
is attached. -/
theorem Ok_array_envelope (elems : List JsVal) (ic : Option JsVal) (ct : Option String) :
    (ODataResult.Ok (OkInput.array elems ic) ct).statusCode = 200
    ∧ (ODataResult.Ok (OkInput.array elems ic) ct).body
        = some (if inlinecountIsNumber ic then OkBody.wrapped elems none ic
                else OkBody.wrapped elems ic none) := by
  by_cases h : inlinecountIsNumber ic <;>
    simp [ODataResult.Ok, ODataResult.make, h]

/-- **C8**: `save` is an upsert.  With a truthy key whose entity exists it
returns exactly the outcome of `update` (resolving with `undefined`); with a
truthy key but no entity found, or with a falsy key, it returns the outcome
of `create`. -/
theorem save_upsert (env : Env) (key : JsVal) (body : JsVal) (tx : Option Nat) :
    (key.truthy = true → (env.repoFindOneF key).truthy = true →
      TypedService.save env key body tx
        = (Ev.repoFindOne key :: (TypedService.update env key body tx).1,
           Except.map (fun _ => JsVal.undefinedV) (TypedService.update env key body tx).2))
    ∧ (key.truthy = true → (env.repoFindOneF key).truthy = false →
      TypedService.save env key body tx
        = (Ev.repoFindOne key :: (TypedService.create env body tx).1,
           (TypedService.create env body tx).2))
    ∧ (key.truthy = false →
      TypedService.save env key body tx = TypedService.create env body tx) := by
  refine ⟨fun hkey hitem => ?_, fun hkey hitem => ?_, fun hkey => ?_⟩
  · have hb := Res.bind_map_ok (TypedService.update env key body tx) JsVal.undefinedV
    simp [TypedService.save, hkey, hitem, Res.bind_emit, hb]
  · simp [TypedService.save, hkey, hitem, Res.bind_emit]
  · simp [TypedService.save, hkey]

/-- Witness for **C8**: in `env0` key 1 exists, so `save` runs `update`. -/
theorem save_upsert_witness :
    TypedService.save env0 (JsVal.num 1) (JsVal.obj []) none
      = (Ev.repoFindOne (JsVal.num 1) :: (TypedService.update env0 (JsVal.num 1) (JsVal.obj []) none).1,
         Except.map (fun _ => JsVal.undefinedV) (TypedService.update env0 (JsVal.num 1) (JsVal.obj []) none).2) :=
  (save_upsert env0 (JsVal.num 1) (JsVal.obj []) none).1 rfl rfl

/-- Looking a key up in a concatenation skips a block that does not bind it. -/
theorem lookup_append_of_none {l1 l2 : List (String × String)} {k : String}
    (h : l1.lookup k = none) : (l1 ++ l2).lookup k = l2.lookup k := by
  induction l1 with
  | nil => simp
  | cons p rest ih =>
      rcases p with ⟨a, b⟩
      by_cases hk : k = a
      · subst hk; simp [List.lookup] at h
      · have hba : (k == a) = false := beq_eq_false_iff_ne.mpr hk
        simp only [List.cons_append, List.lookup, hba] at h ⊢
        exact ih h

/-- **C10**: the entity-controller registry is one-to-one: registering an
entity that already has a controller throws the duplicate-registration
`Error` (no updated registry is produced), otherwise the mapping is added
and `getEntityController` then returns the instance of the registered
controller. -/
theorem registerController_unique (reg : Registry) (e c : String)
    (instanceOf : Option String → JsVal) :
    ((reg.entries.lookup e).isSome = true →
      registerController reg e c
        = Except.error (Err.jsError "the controller has been generated for entity. (one entity - one controller)"))
    ∧ ((reg.entries.lookup e).isSome = false →
        registerController reg e c = Except.ok { entries := reg.entries ++ [(e, c)] }
        ∧ ∀ reg2, registerController reg e c = Except.ok reg2 →
            getEntityController instanceOf reg2 e = instanceOf (some c)) := by
  constructor
  · intro hdup
    simp [registerController, hdup]
  · intro hfree
    have hnone : reg.entries.lookup e = none := Option.not_isSome_iff_eq_none.mp (by simp [hfree])
    have hreg : registerController reg e c = Except.ok { entries := reg.entries ++ [(e, c)] } := by
      simp [registerController, hfree]
    refine ⟨hreg, fun reg2 h2 => ?_⟩
    rw [hreg] at h2
    cases h2
    simp [getEntityController, lookup_append_of_none hnone, List.lookup]

/-- Witness for **C10**: register, resolve, and reject a duplicate on a
concrete registry. -/
theorem registerController_unique_witness :
    (registerController { entries := [] } "Teacher" "TeacherController"
      = Except.ok { entries := [("Teacher", "TeacherController")] })
    ∧ (getEntityController (fun o => JsVal.str (o.getD "missing"))
        { entries := [("Teacher", "TeacherController")] } "Teacher"
      = JsVal.str "TeacherController")
    ∧ (registerController { entries := [("Teacher", "TeacherController")] } "Teacher" "Other"
      = Except.error (Err.jsError "the controller has been generated for entity. (one entity - one controller)")) := by
  refine ⟨?_, ?_, ?_⟩
  · exact ((registerController_unique { entries := [] } "Teacher" "TeacherController"
      (fun o => JsVal.str (o.getD "missing"))).2 rfl).1
  · exact (((registerController_unique { entries := [] } "Teacher" "TeacherController"
      (fun o => JsVal.str (o.getD "missing"))).2 rfl).2
      { entries := [("Teacher", "TeacherController")] } rfl).trans rfl
  · exact (registerController_unique { entries := [("Teacher", "TeacherController")] }
      "Teacher" "Other" (fun o => JsVal.str (o.getD "missing"))).1 rfl

/-- The reloaded data of the query branch of `find`: the id query result rows
mapped to their ids and re-read through `repo.findByIds`. -/
def TypedService.dataOf (env : Env) (qs : String) : List JsVal :=
  env.findByIdsF ((env.runQuery qs).map (fun item => item.getProp "id"))

/-- All events of the guarded afterLoad hook call are afterLoad hook
executions. -/
theorem TypedService.findHookCall_events (env : Env) (data : List JsVal) (tx : Option Nat) :
    ∀ e ∈ (TypedService.findHookCall env data tx).1, isHookEv .afterLoad e := by
  unfold TypedService.findHookCall
  split
  · exact TypedService.executeHooks_events _ _ _ rfl
  · simp [Res.ok]

/-- **C5**: when the DB helper signals an inline count (a truthy, i.e.
non-empty, count statement), `find` runs the count query after the data reads
and attaches the returned total (string totals parsed to integers) as the
`inlinecount` of the result array; with no count statement (or an empty one),
the only query executed is the data query and the result array has no
`inlinecount`. -/
theorem find_inline_count (env : Env) (q : String) (tx : Option Nat)
    (qs : String) (cso : Option String) (hsql : env.buildSQL q = (qs, cso)) :
    (∀ cs row rest, cso = some cs → cs ≠ "" → env.runQuery cs = row :: rest →
      TypedService.find env (some q) tx
        = ([Ev.repoQuery qs, Ev.repoFindByIds, Ev.repoQuery cs]
             ++ (TypedService.findHookCall env (TypedService.dataOf env qs) tx).1,
           Except.map
             (fun _ => { items := TypedService.dataOf env qs,
                         inlinecount := some (totalValue row) : FindResult })
             (TypedService.findHookCall env (TypedService.dataOf env qs) tx).2))
    ∧ ((cso = none ∨ cso = some "") →
        TypedService.find env (some q) tx
          = ([Ev.repoQuery qs, Ev.repoFindByIds]
               ++ (TypedService.findHookCall env (TypedService.dataOf env qs) tx).1,
             Except.map
               (fun _ => { items := TypedService.dataOf env qs,
                           inlinecount := none : FindResult })
               (TypedService.findHookCall env (TypedService.dataOf env qs) tx).2)
        ∧ ∀ s, Ev.repoQuery s ∈ (TypedService.find env (some q) tx).1 → s = qs) := by
  constructor
  · intro cs row rest hcs hne hrun
    subst hcs
    have hic : TypedService.inlineCountOf env (some cs)
        = ([Ev.repoQuery cs], Except.ok (some (totalValue row))) := by
      simp [TypedService.inlineCountOf, hne, hrun, Res.bind_emit, Res.ok]
    have hfd : TypedService.findData env (some q)
        = ([Ev.repoQuery qs, Ev.repoFindByIds, Ev.repoQuery cs],
           Except.ok (TypedService.dataOf env qs, some (totalValue row))) := by
      simp [TypedService.findData, hsql, hic, Res.bind, Res.emit, Res.ok,
        TypedService.dataOf]
    rcases hhc : TypedService.findHookCall env (TypedService.dataOf env qs) tx with ⟨th, rh⟩
    cases rh <;> simp [TypedService.find, hfd, hhc, Res.bind, Res.ok, Except.map]
  · intro hnone
    have hic : TypedService.inlineCountOf env cso = ([], Except.ok none) := by
      rcases hnone with h | h <;> subst h <;> simp [TypedService.inlineCountOf, Res.ok]
    have hfd : TypedService.findData env (some q)
        = ([Ev.repoQuery qs, Ev.repoFindByIds],
           Except.ok (TypedService.dataOf env qs, none)) := by
      simp [TypedService.findData, hsql, hic, Res.bind, Res.emit, Res.ok,
        TypedService.dataOf]
    have hfind : TypedService.find env (some q) tx
        = ([Ev.repoQuery qs, Ev.repoFindByIds]
             ++ (TypedService.findHookCall env (TypedService.dataOf env qs) tx).1,
           Except.map
             (fun _ => { items := TypedService.dataOf env qs,
                         inlinecount := none : FindResult })
             (TypedService.findHookCall env (TypedService.dataOf env qs) tx).2) := by
      rcases hhc : TypedService.findHookCall env (TypedService.dataOf env qs) tx with ⟨th, rh⟩
      cases rh <;> simp [TypedService.find, hfd, hhc, Res.bind, Res.ok, Except.map]
    refine ⟨hfind, fun s hs => ?_⟩
    rw [hfind] at hs
    simp only [List.mem_append, List.mem_cons, List.mem_singleton] at hs
    rcases hs with (h | h | h) | h
    · cases h; rfl
    · cases h
    · cases h
    · rcases TypedService.findHookCall_events env (TypedService.dataOf env qs) tx _ h with ⟨i, hi⟩
      cases hi

/-- Witness for **C5**: in `env0` the helper always emits a count statement,
the count query returns a string total "42" which is parsed and attached. -/
theorem find_inline_count_witness :
    TypedService.find env0 (some "q") none
      = ([Ev.repoQuery "select q", Ev.repoFindByIds, Ev.repoQuery "count q"]
           ++ (TypedService.findHookCall env0 (TypedService.dataOf env0 "select q") none).1,
         Except.map
           (fun _ => { items := TypedService.dataOf env0 "select q",
                       inlinecount := some (totalValue
                         (JsVal.obj [("id", JsVal.num 1), ("total", JsVal.str "42")])) : FindResult })
           (TypedService.findHookCall env0 (TypedService.dataOf env0 "select q") none).2) :=
  (find_inline_count env0 "q" none "select q" (some "count q") rfl).1
    "count q" (JsVal.obj [("id", JsVal.num 1), ("total", JsVal.str "42")]) [] rfl
    (by decide) rfl

/-- All events of the OneToMany deep-create loop are sub-service creations. -/
theorem TypedService.deepCreateItems_events (env : Env) (n : String) (fk : String)
    (v : JsVal) (items : List JsVal) :
    ∀ e ∈ (TypedService.deepCreateItems env n fk v items).1, ∃ m, e = Ev.subCreate m := by
  induction items with
  | nil => simp [TypedService.deepCreateItems, Res.ok]
  | cons it rest ih =>
      intro e he
      rcases hsc : env.serviceCreate n (it.setProp fk v) with err | created
      · simp [TypedService.deepCreateItems, Res.bind, Res.emit, Res.liftE, hsc] at he
        exact ⟨n, he⟩
      · rcases hrec : TypedService.deepCreateItems env n fk v rest with ⟨tr, rr⟩
        have ihr : ∀ e ∈ tr, ∃ m, e = Ev.subCreate m := by
          intro e2 he2
          exact ih e2 (by rw [hrec]; exact he2)
        cases rr <;>
          · simp [TypedService.deepCreateItems, Res.bind, Res.emit, Res.liftE, Res.ok,
              hsc, hrec] at he
            rcases he with h | h
            · exact ⟨n, h⟩
            · exact ihr e h

/-- All events of one `_deepInsert` iteration are sub-service creations. -/
theorem TypedService.deepInsertStep_events (env : Env) (acc : Bool × JsVal)
    (nav : String × NavOptions) :
    ∀ e ∈ (TypedService.deepInsertStep env acc nav).1, ∃ m, e = Ev.subCreate m := by
  unfold TypedService.deepInsertStep
  by_cases hown : acc.2.hasOwn nav.1
  · simp only [hown, if_true]
    rcases hnt : nav.2.navType with _ | _ | _
    · -- OneToMany
      rcases hnd : acc.2.getProp nav.1 with _ | _ | b | i | _ | s | xs | fs
      all_goals simp only [hnt, hnd]
      all_goals first
      | (intro e he
         exact absurd he (by simp [Res.fail]))
      | (refine Res.forall_mem_bind ?_ ?_
         · exact TypedService.deepCreateItems_events env _ _ _ _
         · intro a; simp [Res.ok])
    · -- ManyToOne
      simp only [hnt]
      intro e he
      rcases hsc : env.serviceCreate nav.2.entity (acc.2.getProp nav.1) with err | created <;>
        · simp [Res.bind, Res.emit, Res.liftE, Res.ok, hsc] at he
          first
          | exact ⟨nav.2.entity, he⟩
          | (rcases he with h | h
             · exact ⟨nav.2.entity, h⟩
             · cases h)
    · -- default (OneToOne)
      simp only [hnt]
      intro e he
      rcases hsc : env.serviceCreate nav.2.entity (acc.2.getProp nav.1) with err | created
      · simp [Res.bind, Res.emit, Res.liftE, hsc] at he
        exact ⟨nav.2.entity, he⟩
      · by_cases h1 : env.hasField env.entityTypeName nav.2.foreignKey <;>
          by_cases h2 : env.hasField nav.2.entity nav.2.foreignKey <;>
          · simp [Res.bind, Res.emit, Res.liftE, Res.ok, Res.fail, hsc, h1, h2] at he
            first
            | exact ⟨nav.2.entity, he⟩
            | (rcases he with h | h
               · exact ⟨nav.2.entity, h⟩
               · cases h)
  · simp [hown, Res.ok]

/-- All events of the `_deepInsert` loop are sub-service creations. -/
theorem TypedService.deepInsertLoop_events (env : Env) (navs : List (String × NavOptions))
    (acc : Bool × JsVal) :
    ∀ e ∈ (TypedService.deepInsertLoop env navs acc).1, ∃ m, e = Ev.subCreate m := by
  induction navs generalizing acc with
  | nil => simp [TypedService.deepInsertLoop, Res.ok]
  | cons nav rest ih =>
      refine Res.forall_mem_bind ?_ ?_
      · exact TypedService.deepInsertStep_events env acc nav
      · intro acc2
        exact ih acc2

/-- All events of `_deepInsert` are sub-service creations. -/
theorem TypedService.deepInsert_events (env : Env) (body : JsVal) :
    ∀ e ∈ (TypedService.deepInsert env body).1, ∃ m, e = Ev.subCreate m :=
  TypedService.deepInsertLoop_events env env.navigations (false, body)

/-- A data-read effect of `find`: the full scan, the id reload or a raw SQL
query. -/
def isReadEv (e : Ev) : Prop :=
  e = Ev.repoFindAll ∨ e = Ev.repoFindByIds ∨ ∃ s, e = Ev.repoQuery s

/-- Hook executions of different hook types are different events. -/
theorem isHookEv_ne_types {ht1 ht2 : HookType} {e : Ev} (hne : ht1 ≠ ht2)
    (h : isHookEv ht1 e) : ¬ isHookEv ht2 e := by
  rcases h with ⟨i, rfl⟩
  rintro ⟨j, hj⟩
  injection hj with hty hidx
  exact hne hty

/-- A hook execution is not a data read. -/
theorem isHookEv_not_read {ht : HookType} {e : Ev} (h : isHookEv ht e) : ¬ isReadEv e := by
  rcases h with ⟨i, rfl⟩
  rintro (h1 | h1 | ⟨s, h1⟩) <;> cases h1

/-- All events of the inline-count block are SQL queries. -/
theorem TypedService.inlineCountOf_events (env : Env) (cso : Option String) :
    ∀ e ∈ (TypedService.inlineCountOf env cso).1, ∃ s, e = Ev.repoQuery s := by
  rcases cso with _ | cs
  · simp [TypedService.inlineCountOf, Res.ok]
  · by_cases hcs : cs = ""
    · simp [TypedService.inlineCountOf, hcs, Res.ok]
    · rcases hrun : (env.runQuery cs).head? with _ | row <;>
        · intro e he
          simp [TypedService.inlineCountOf, hcs, hrun, Res.bind, Res.emit, Res.ok,
            Res.fail] at he
          exact ⟨cs, he⟩

/-- All events of the data phase of `find` are data reads. -/
theorem TypedService.findData_events (env : Env) (query : Option String) :
    ∀ e ∈ (TypedService.findData env query).1, isReadEv e := by
  rcases query with _ | q
  · intro e he
    simp [TypedService.findData, Res.bind, Res.emit, Res.ok] at he
    exact Or.inl he
  · rcases hsql : env.buildSQL q with ⟨qs, cso⟩
    intro e he
    rcases hicr : TypedService.inlineCountOf env cso with ⟨tic, ric⟩
    have hicm : ∀ e2 ∈ tic, ∃ s, e2 = Ev.repoQuery s := by
      intro e2 he2
      exact TypedService.inlineCountOf_events env cso e2 (by rw [hicr]; exact he2)
    cases ric <;>
      · simp [TypedService.findData, hsql, hicr, Res.bind, Res.emit, Res.ok] at he
        rcases he with h | h | h
        · exact Or.inr (Or.inr ⟨qs, h⟩)
        · exact Or.inr (Or.inl h)
        · exact Or.inr (Or.inr (hicm e h))

/-- Trace decomposition of `create`: the beforeCreate hook block comes first,
then (when reached) the INSERT followed only by deep-insert sub-creations and
the optional re-save, and finally the afterSave hook block. -/
theorem TypedService.create_shape (env : Env) (body : JsVal) (tx : Option Nat) :
    ∃ t1 mid t2,
      (TypedService.create env body tx).1 = t1 ++ mid ++ t2
      ∧ (∀ e ∈ t1, isHookEv .beforeCreate e)
      ∧ (∀ e ∈ mid, e = Ev.repoInsert ∨ (∃ n, e = Ev.subCreate n) ∨ e = Ev.repoSaveEntity)
      ∧ (∀ e ∈ t2, isHookEv .afterSave e) := by
  rcases h1 : TypedService.executeHooks env
      { hookType := some HookType.beforeCreate, entityType := none,
        data := some (env.repoCreate (env.transform body)), key := none,
        txContext := tx, hasGetService := false } with ⟨t1, r1⟩
  have ht1 : ∀ e ∈ t1, isHookEv .beforeCreate e := by
    have h := TypedService.executeHooks_events env
      { hookType := some HookType.beforeCreate, entityType := none,
        data := some (env.repoCreate (env.transform body)), key := none,
        txContext := tx, hasGetService := false } .beforeCreate rfl
    rw [h1] at h
    exact h
  cases r1 with
  | error e1 =>
      refine ⟨t1, [], [], ?_, ht1, by simp, by simp⟩
      simp [TypedService.create, h1, Res.bind]
  | ok u =>
      rcases h2 : TypedService.deepInsert env (env.repoCreate (env.transform body))
        with ⟨tD, r2⟩
      have htD : ∀ e ∈ tD, ∃ n, e = Ev.subCreate n := by
        have h := TypedService.deepInsert_events env (env.repoCreate (env.transform body))
        rw [h2] at h
        exact h
      cases r2 with
      | error e2 =>
          refine ⟨t1, Ev.repoInsert :: tD, [], ?_, ht1, ?_, by simp⟩
          · simp [TypedService.create, h1, h2, Res.bind, Res.emit]
          · intro e he
            rcases List.mem_cons.mp he with h | h
            · exact Or.inl h
            · exact Or.inr (Or.inl (htD e h))
      | ok rb =>
          rcases h3 : TypedService.executeHooks env
              { hookType := some HookType.afterSave, entityType := none,
                data := some rb.2, key := none, txContext := tx, hasGetService := false }
            with ⟨t2, r3⟩
          have ht2 : ∀ e ∈ t2, isHookEv .afterSave e := by
            have h := TypedService.executeHooks_events env
              { hookType := some HookType.afterSave, entityType := none,
                data := some rb.2, key := none, txContext := tx, hasGetService := false }
              .afterSave rfl
            rw [h3] at h
            exact h
          have hmid : ∀ e ∈ Ev.repoInsert :: (tD ++ (if rb.1 then [Ev.repoSaveEntity] else [])),
              e = Ev.repoInsert ∨ (∃ n, e = Ev.subCreate n) ∨ e = Ev.repoSaveEntity := by
            intro e he
            rcases List.mem_cons.mp he with h | h
            · exact Or.inl h
            · rcases List.mem_append.mp h with h | h
              · exact Or.inr (Or.inl (htD e h))
              · by_cases hrs : rb.1 <;> simp [hrs] at h
                exact Or.inr (Or.inr h)
          refine ⟨t1, Ev.repoInsert :: (tD ++ (if rb.1 then [Ev.repoSaveEntity] else [])), t2,
            ?_, ht1, hmid, ht2⟩
          by_cases hrs : rb.1 <;>
            cases r3 <;>
              simp [TypedService.create, h1, h2, h3, hrs, Res.bind, Res.emit, Res.ok]

/-- Trace decomposition of `update`: beforeUpdate hook block, the UPDATE,
then the afterSave hook block. -/
theorem TypedService.update_shape (env : Env) (key : JsVal) (body : JsVal) (tx : Option Nat) :
    ∃ t1 mid t2,
      (TypedService.update env key body tx).1 = t1 ++ mid ++ t2
      ∧ (∀ e ∈ t1, isHookEv .beforeUpdate e)
      ∧ (∀ e ∈ mid, e = Ev.repoUpdate key)
      ∧ (∀ e ∈ t2, isHookEv .afterSave e) := by
  rcases h1 : TypedService.executeHooks env
      { hookType := some HookType.beforeUpdate, entityType := none,
        data := some (env.repoCreate (env.transform body)), key := some key,
        txContext := tx, hasGetService := false } with ⟨t1, r1⟩
  have ht1 : ∀ e ∈ t1, isHookEv .beforeUpdate e := by
    have h := TypedService.executeHooks_events env
      { hookType := some HookType.beforeUpdate, entityType := none,
        data := some (env.repoCreate (env.transform body)), key := some key,
        txContext := tx, hasGetService := false } .beforeUpdate rfl
    rw [h1] at h
    exact h
  cases r1 with
  | error e1 =>
      refine ⟨t1, [], [], ?_, ht1, by simp, by simp⟩
      simp [TypedService.update, h1, Res.bind]
  | ok u =>
      rcases h2 : TypedService.executeHooks env
          { hookType := some HookType.afterSave, entityType := none,
            data := some (env.repoCreate (env.transform body)), key := some key,
            txContext := tx, hasGetService := false } with ⟨t2, r2⟩
      have ht2 : ∀ e ∈ t2, isHookEv .afterSave e := by
        have h := TypedService.executeHooks_events env
          { hookType := some HookType.afterSave, entityType := none,
            data := some (env.repoCreate (env.transform body)), key := some key,
            txContext := tx, hasGetService := false } .afterSave rfl
        rw [h2] at h
        exact h
      refine ⟨t1, [Ev.repoUpdate key], t2, ?_, ht1, by simp, ht2⟩
      cases r2 <;> simp [TypedService.update, h1, h2, Res.bind, Res.emit, Res.ok]

/-- Trace decomposition of `delete`: beforeDelete hook block, the DELETE,
then the afterSave hook block. -/
theorem TypedService.delete_shape (env : Env) (key : JsVal) (tx : Option Nat) :
    ∃ t1 mid t2,
      (TypedService.delete env key tx).1 = t1 ++ mid ++ t2
      ∧ (∀ e ∈ t1, isHookEv .beforeDelete e)
      ∧ (∀ e ∈ mid, e = Ev.repoDelete key)
      ∧ (∀ e ∈ t2, isHookEv .afterSave e) := by
  rcases h1 : TypedService.executeHooks env
      { hookType := some HookType.beforeDelete, entityType := none,
        data := none, key := some key, txContext := tx, hasGetService := false }
    with ⟨t1, r1⟩
  have ht1 : ∀ e ∈ t1, isHookEv .beforeDelete e := by
    have h := TypedService.executeHooks_events env
      { hookType := some HookType.beforeDelete, entityType := none,
        data := none, key := some key, txContext := tx, hasGetService := false }
      .beforeDelete rfl
    rw [h1] at h
    exact h
  cases r1 with
  | error e1 =>
      refine ⟨t1, [], [], ?_, ht1, by simp, by simp⟩
      simp [TypedService.delete, h1, Res.bind]
  | ok u =>
      rcases h2 : TypedService.executeHooks env
          { hookType := some HookType.afterSave, entityType := none,
            data := none, key := some key, txContext := tx, hasGetService := false }
        with ⟨t2, r2⟩
      have ht2 : ∀ e ∈ t2, isHookEv .afterSave e := by
        have h := TypedService.executeHooks_events env
          { hookType := some HookType.afterSave, entityType := none,
            data := none, key := some key, txContext := tx, hasGetService := false }
          .afterSave rfl
        rw [h2] at h
        exact h
      refine ⟨t1, [Ev.repoDelete key], t2, ?_, ht1, by simp, ht2⟩
      cases r2 <;> simp [TypedService.delete, h1, h2, Res.bind, Res.emit, Res.ok]

/-- **C3**: hooks run around each CRUD operation in the declared order: in
every execution of `create` all beforeCreate hook executions precede the ORM
INSERT and all afterSave hook executions follow it; in `update` the
beforeUpdate hooks precede the ORM update and the afterSave hooks follow it;
in `delete` the beforeDelete hooks precede the ORM delete; in `findOne` and
`find` the afterLoad hooks follow the data reads. -/
theorem crud_hook_order (env : Env) (body key : JsVal) (q : Option String) (tx : Option Nat) :
    precedes (isHookEv .beforeCreate) (fun e => e = Ev.repoInsert)
      (TypedService.create env body tx).1
    ∧ precedes (fun e => e = Ev.repoInsert) (isHookEv .afterSave)
      (TypedService.create env body tx).1
    ∧ precedes (isHookEv .beforeUpdate) (fun e => e = Ev.repoUpdate key)
      (TypedService.update env key body tx).1
    ∧ precedes (fun e => e = Ev.repoUpdate key) (isHookEv .afterSave)
      (TypedService.update env key body tx).1
    ∧ precedes (isHookEv .beforeDelete) (fun e => e = Ev.repoDelete key)
      (TypedService.delete env key tx).1
    ∧ precedes (fun e => e = Ev.repoFindOne key) (isHookEv .afterLoad)
      (TypedService.findOne env key tx).1
    ∧ precedes isReadEv (isHookEv .afterLoad) (TypedService.find env q tx).1 := by
  obtain ⟨t1, mid, t2, htr, h1, h2, h3⟩ := TypedService.create_shape env body tx
  obtain ⟨u1, umid, u2, hutr, hu1, hu2, hu3⟩ := TypedService.update_shape env key body tx
  obtain ⟨d1, dmid, d2, hdtr, hd1, hd2, hd3⟩ := TypedService.delete_shape env key tx
  refine ⟨?_, ?_, ?_, ?_, ?_, ?_, ?_⟩
  · rw [htr, List.append_assoc]
    refine precedes_of_append ?_ ?_
    · intro e he hq
      rcases h1 e he with ⟨i, rfl⟩
      cases hq
    · intro e he hp
      rcases List.mem_append.mp he with h | h
      · rcases h2 e h with h' | ⟨n, h'⟩ | h' <;>
          (subst h'; rcases hp with ⟨i, hi⟩; cases hi)
      · exact isHookEv_ne_types (by decide) (h3 e h) hp
  · rw [htr]
    refine precedes_of_append ?_ ?_
    · intro e he hq
      rcases List.mem_append.mp he with h | h
      · exact isHookEv_ne_types (by decide) (h1 e h) hq
      · rcases h2 e h with h' | ⟨n, h'⟩ | h' <;>
          (subst h'; rcases hq with ⟨i, hi⟩; cases hi)
    · intro e he hp
      rcases h3 e he with ⟨i, hi⟩
      rw [hp] at hi
      cases hi
  · rw [hutr, List.append_assoc]
    refine precedes_of_append ?_ ?_
    · intro e he hq
      rcases hu1 e he with ⟨i, rfl⟩
      cases hq
    · intro e he hp
      rcases List.mem_append.mp he with h | h
      · have h' := hu2 e h
        subst h'
        rcases hp with ⟨i, hi⟩
        cases hi
      · exact isHookEv_ne_types (by decide) (hu3 e h) hp
  · rw [hutr]
    refine precedes_of_append ?_ ?_
    · intro e he hq
      rcases List.mem_append.mp he with h | h
      · exact isHookEv_ne_types (by decide) (hu1 e h) hq
      · have h' := hu2 e h
        subst h'
        rcases hq with ⟨i, hi⟩
        cases hi
    · intro e he hp
      rcases hu3 e he with ⟨i, hi⟩
      rw [hp] at hi
      cases hi
  · rw [hdtr, List.append_assoc]
    refine precedes_of_append ?_ ?_
    · intro e he hq
      rcases hd1 e he with ⟨i, rfl⟩
      cases hq
    · intro e he hp
      rcases List.mem_append.mp he with h | h
      · have h' := hd2 e h
        subst h'
        rcases hp with ⟨i, hi⟩
        cases hi
      · exact isHookEv_ne_types (by decide) (hd3 e h) hp
  · cases hnk : key.isNullish with
    | true =>
        have htr0 : (TypedService.findOne env key tx).1 = [] := by
          simp [TypedService.findOne, hnk, Res.ok]
        rw [htr0]
        intro i j hi hj hp hq
        exact absurd hi (by simp)
    | false =>
        cases hemp : (env.repoFindOneF key).isEmpty with
        | true =>
            have htr1 : (TypedService.findOne env key tx).1 = [Ev.repoFindOne key] := by
              simp [TypedService.findOne, hnk, hemp, Res.bind, Res.emit, Res.fail]
            rw [htr1]
            refine precedes_of_not_right ?_
            intro e he
            simp only [List.mem_singleton] at he
            subst he
            rintro ⟨i, hi⟩
            cases hi
        | false =>
            rcases hH : TypedService.executeHooks env
                { hookType := some HookType.afterLoad, entityType := some env.entityTypeName,
                  data := some (env.repoFindOneF key), key := none, txContext := tx,
                  hasGetService := false } with ⟨tH, rH⟩
            have hevs : ∀ e ∈ tH, isHookEv .afterLoad e := by
              have h := TypedService.executeHooks_events env
                { hookType := some HookType.afterLoad, entityType := some env.entityTypeName,
                  data := some (env.repoFindOneF key), key := none, txContext := tx,
                  hasGetService := false } .afterLoad rfl
              rw [hH] at h
              exact h
            have htr1 : (TypedService.findOne env key tx).1 = Ev.repoFindOne key :: tH := by
              cases rH <;>
                simp [TypedService.findOne, hnk, hemp, hH, Res.bind, Res.emit, Res.ok]
            rw [htr1, show Ev.repoFindOne key :: tH = [Ev.repoFindOne key] ++ tH from rfl]
            refine precedes_of_append ?_ ?_
            · intro e he hq
              simp only [List.mem_singleton] at he
              subst he
              rcases hq with ⟨i, hi⟩
              cases hi
            · intro e he hp
              rcases hevs e he with ⟨i, hi⟩
              rw [hp] at hi
              cases hi
  · rcases hfd : TypedService.findData env q with ⟨tD, rD⟩
    have htDm : ∀ e ∈ tD, isReadEv e := by
      have h := TypedService.findData_events env q
      rw [hfd] at h
      exact h
    cases rD with
    | error e0 =>
        have htr2 : (TypedService.find env q tx).1 = tD := by
          simp [TypedService.find, hfd, Res.bind]
        rw [htr2]
        refine precedes_of_not_right ?_
        intro e he hq
        exact isHookEv_not_read hq (htDm e he)
    | ok dic =>
        rcases hhc : TypedService.findHookCall env dic.1 tx with ⟨tH, rH⟩
        have htHm : ∀ e ∈ tH, isHookEv .afterLoad e := by
          have h := TypedService.findHookCall_events env dic.1 tx
          rw [hhc] at h
          exact h
        have htr2 : (TypedService.find env q tx).1 = tD ++ tH := by
          cases rH <;> simp [TypedService.find, hfd, hhc, Res.bind, Res.ok]
        rw [htr2]
        refine precedes_of_append ?_ ?_
        · intro e he hq
          exact isHookEv_not_read hq (htDm e he)
        · intro e he hp
          exact isHookEv_not_read (htHm e he) hp

/-- Setting one field leaves the lookup of a different name unchanged. -/
theorem JsVal.lookup_setField_ne (fields : List (String × JsVal)) {m nm : String}
    (h : m ≠ nm) (w : JsVal) :
    (JsVal.setField fields m w).lookup nm = fields.lookup nm := by
  induction fields with
  | nil =>
      have hne : (nm == m) = false := beq_eq_false_iff_ne.mpr (Ne.symm h)
      simp [JsVal.setField, List.lookup, hne]
  | cons p rest ih =>
      rcases p with ⟨k, val⟩
      by_cases hk : k = m
      · subst hk
        have hne : (nm == k) = false := beq_eq_false_iff_ne.mpr (Ne.symm h)
        simp [JsVal.setField, List.lookup, hne]
      · simp only [JsVal.setField, if_neg hk]
        by_cases hnmk : nm = k
        · subst hnmk
          simp [List.lookup]
        · have hne : (nm == k) = false := beq_eq_false_iff_ne.mpr hnmk
          simp [List.lookup, hne, ih]

/-- Writing a different property does not change a read. -/
theorem JsVal.getProp_setProp_ne (v : JsVal) {m nm : String} (h : m ≠ nm) (w : JsVal) :
    (v.setProp m w).getProp nm = v.getProp nm := by
  cases v <;> simp [JsVal.setProp, JsVal.getProp]
  rw [JsVal.lookup_setField_ne _ h]

/-- Writing a different property does not change ownership. -/
theorem JsVal.hasOwn_setProp_ne (v : JsVal) {m nm : String} (h : m ≠ nm) (w : JsVal) :
    (v.setProp m w).hasOwn nm = v.hasOwn nm := by
  cases v <;> simp [JsVal.setProp, JsVal.hasOwn]
  rw [JsVal.lookup_setField_ne _ h]

/-- With sub-creates that always resolve, the OneToMany deep-create loop
never rejects. -/
theorem TypedService.deepCreateItems_no_err (env : Env) (n : String) (fk : String)
    (v : JsVal) (items : List JsVal)
    (hok : ∀ m b, ∃ w, env.serviceCreate m b = Except.ok w) :
    ∀ e, (TypedService.deepCreateItems env n fk v items).2 = Except.error e → False := by
  induction items with
  | nil => simp [TypedService.deepCreateItems, Res.ok]
  | cons it rest ih =>
      intro e he
      obtain ⟨w, hw⟩ := hok n (it.setProp fk v)
      rcases hrec : TypedService.deepCreateItems env n fk v rest with ⟨tr, rr⟩
      cases rr with
      | error e2 =>
          exact ih e2 (by rw [hrec])
      | ok l =>
          rw [show TypedService.deepCreateItems env n fk v (it :: rest)
              = Res.bind (Res.emit (.subCreate n)) (fun _ =>
                  Res.bind (Res.liftE (env.serviceCreate n (it.setProp fk v))) (fun created =>
                    Res.bind (TypedService.deepCreateItems env n fk v rest) (fun createdRest =>
                      Res.ok (created :: createdRest)))) from rfl] at he
          simp [Res.bind, Res.emit, Res.liftE, Res.ok, hw, hrec] at he

/-- With sub-creates that always resolve, any rejection of one `_deepInsert`
iteration is a `ServerInternalError`. -/
theorem TypedService.deepInsertStep_err (env : Env) (acc : Bool × JsVal)
    (nav : String × NavOptions)
    (hok : ∀ m b, ∃ w, env.serviceCreate m b = Except.ok w) :
    ∀ e, (TypedService.deepInsertStep env acc nav).2 = Except.error e →
      ∃ m, e = Err.serverInternal m := by
  intro e he
  rw [TypedService.deepInsertStep] at he
  by_cases hown : acc.2.hasOwn nav.1
  · simp only [hown, if_true] at he
    rcases hnt : nav.2.navType with _ | _ | _ <;> simp only [hnt] at he
    · -- OneToMany
      rcases hnd : acc.2.getProp nav.1 with _ | _ | b | i | _ | s | xs | fs <;>
        simp only [hnd] at he
      all_goals try (simp [Res.fail] at he; first | exact ⟨_, he.symm⟩ | exact ⟨_, he⟩)
      rcases hitems : TypedService.deepCreateItems env nav.2.entity nav.2.foreignKey
          (acc.2.getProp env.keyName) xs with ⟨ti, ri⟩
      cases ri with
      | error e2 =>
          exact (TypedService.deepCreateItems_no_err env _ _ _ xs hok e2 (by rw [hitems])).elim
      | ok l =>
          simp [Res.bind, Res.ok, hitems] at he
    · -- ManyToOne
      obtain ⟨w, hw⟩ := hok nav.2.entity (acc.2.getProp nav.1)
      simp [Res.bind, Res.emit, Res.liftE, Res.ok, hw] at he
    · -- default branch
      obtain ⟨w, hw⟩ := hok nav.2.entity (acc.2.getProp nav.1)
      by_cases h1 : env.hasField env.entityTypeName nav.2.foreignKey <;>
        by_cases h2 : env.hasField nav.2.entity nav.2.foreignKey <;>
        simp [Res.bind, Res.emit, Res.liftE, Res.ok, Res.fail, hw, h1, h2] at he
      first
      | exact ⟨_, he.symm⟩
      | exact ⟨_, he⟩
  · simp [hown, Res.ok] at he

/-- With sub-creates that always resolve, any rejection of the `_deepInsert`
loop is a `ServerInternalError`. -/
theorem TypedService.deepInsertLoop_err (env : Env) (navs : List (String × NavOptions))
    (acc : Bool × JsVal)
    (hok : ∀ m b, ∃ w, env.serviceCreate m b = Except.ok w) :
    ∀ e, (TypedService.deepInsertLoop env navs acc).2 = Except.error e →
      ∃ m, e = Err.serverInternal m := by
  induction navs generalizing acc with
  | nil => simp [TypedService.deepInsertLoop, Res.ok]
  | cons nav rest ih =>
      intro e he
      rcases hstep : TypedService.deepInsertStep env acc nav with ⟨tS, rS⟩
      cases rS with
      | error e2 =>
          simp only [TypedService.deepInsertLoop] at he
          rw [hstep] at he
          simp [Res.bind] at he
          obtain ⟨m, hm⟩ := TypedService.deepInsertStep_err env acc nav hok e2 (by rw [hstep])
          exact ⟨m, by rw [← he, hm]⟩
      | ok acc2 =>
          simp only [TypedService.deepInsertLoop] at he
          rw [hstep] at he
          simp [Res.bind] at he
          exact ih acc2 e he

/-- Injectivity of a successful `Res` value. -/
theorem res_ok_eq {α : Type} {t1 t2 : List Ev} {a b : α}
    (h : ((t1, Except.ok a) : List Ev × Except Err α) = (t2, Except.ok b)) : a = b :=
  Except.ok.inj (congrArg Prod.snd h)

/-- An iteration over a navigation with a different name and a different
foreign key leaves the property of interest untouched. -/
theorem TypedService.deepInsertStep_preserves (env : Env) (acc : Bool × JsVal)
    (nav : String × NavOptions) (nm : String)
    (hname : nav.1 ≠ nm) (hfk : nav.2.foreignKey ≠ nm) :
    ∀ t acc2, TypedService.deepInsertStep env acc nav = (t, Except.ok acc2) →
      acc2.2.getProp nm = acc.2.getProp nm ∧ acc2.2.hasOwn nm = acc.2.hasOwn nm := by
  intro t acc2 hstep
  rw [TypedService.deepInsertStep] at hstep
  by_cases hown : acc.2.hasOwn nav.1
  · simp only [hown, if_true] at hstep
    rcases hnt : nav.2.navType with _ | _ | _ <;> simp only [hnt] at hstep
    · -- OneToMany
      rcases hnd : acc.2.getProp nav.1 with _ | _ | b | i | _ | s | xs | fs <;>
        simp only [hnd] at hstep
      all_goals try (exact Except.noConfusion (congrArg Prod.snd hstep))
      rcases hitems : TypedService.deepCreateItems env nav.2.entity nav.2.foreignKey
          (acc.2.getProp env.keyName) xs with ⟨ti, ri⟩
      cases ri with
      | error e2 =>
          rw [hitems] at hstep
          simp only [Res.bind, Res.ok] at hstep
          exact Except.noConfusion (congrArg Prod.snd hstep)
      | ok l =>
          rw [hitems] at hstep
          simp only [Res.bind, Res.ok, List.append_nil] at hstep
          rw [← res_ok_eq hstep]
          exact ⟨JsVal.getProp_setProp_ne _ hname _, JsVal.hasOwn_setProp_ne _ hname _⟩
    · -- ManyToOne
      rcases hsc : env.serviceCreate nav.2.entity (acc.2.getProp nav.1) with e2 | w <;>
        simp only [Res.bind, Res.emit, Res.liftE, Res.ok, hsc, List.append_nil] at hstep
      · exact Except.noConfusion (congrArg Prod.snd hstep)
      · rw [← res_ok_eq hstep]
        refine ⟨?_, ?_⟩
        · show ((acc.2.setProp nav.1 w).setProp nav.2.foreignKey
            (w.getProp (env.targetKeyName nav.2.entity))).getProp nm = acc.2.getProp nm
          rw [JsVal.getProp_setProp_ne _ hfk, JsVal.getProp_setProp_ne _ hname]
        · show ((acc.2.setProp nav.1 w).setProp nav.2.foreignKey
            (w.getProp (env.targetKeyName nav.2.entity))).hasOwn nm = acc.2.hasOwn nm
          rw [JsVal.hasOwn_setProp_ne _ hfk, JsVal.hasOwn_setProp_ne _ hname]
    · -- default branch
      rcases hsc : env.serviceCreate nav.2.entity (acc.2.getProp nav.1) with e2 | w <;>
        simp only [Res.bind, Res.emit, Res.liftE, Res.ok, hsc, List.append_nil] at hstep
      · exact Except.noConfusion (congrArg Prod.snd hstep)
      · by_cases h1 : env.hasField env.entityTypeName nav.2.foreignKey <;>
          by_cases h2 : env.hasField nav.2.entity nav.2.foreignKey <;>
          simp only [h1, h2, if_true, if_false, Bool.false_eq_true, Res.fail, Res.ok] at hstep
        · rw [← res_ok_eq hstep]
          constructor
          · rw [JsVal.getProp_setProp_ne _ hfk, JsVal.getProp_setProp_ne _ hname]
          · rw [JsVal.hasOwn_setProp_ne _ hfk, JsVal.hasOwn_setProp_ne _ hname]
        · rw [← res_ok_eq hstep]
          constructor
          · rw [JsVal.getProp_setProp_ne _ hfk, JsVal.getProp_setProp_ne _ hname]
          · rw [JsVal.hasOwn_setProp_ne _ hfk, JsVal.hasOwn_setProp_ne _ hname]
        · rw [← res_ok_eq hstep]
          constructor
          · rw [JsVal.getProp_setProp_ne _ hname, JsVal.getProp_setProp_ne _ hname]
          · rw [JsVal.hasOwn_setProp_ne _ hname, JsVal.hasOwn_setProp_ne _ hname]
        · exact Except.noConfusion (congrArg Prod.snd hstep)
  · simp only [hown, Bool.false_eq_true, if_false, Res.ok] at hstep
    rw [← res_ok_eq hstep]
    exact ⟨rfl, rfl⟩

/-- A navigation property absent from the body is skipped unchanged. -/
theorem TypedService.deepInsertStep_skip (env : Env) (acc : Bool × JsVal)
    (nav : String × NavOptions) (h : acc.2.hasOwn nav.1 = false) :
    TypedService.deepInsertStep env acc nav = Res.ok acc := by
  rw [TypedService.deepInsertStep]
  simp [h]

/-- A prefix of navigations none of which occurs in the body is skipped. -/
theorem TypedService.deepInsertLoop_skip (env : Env)
    (pre rest : List (String × NavOptions)) (acc : Bool × JsVal)
    (hskip : ∀ p ∈ pre, acc.2.hasOwn p.1 = false) :
    TypedService.deepInsertLoop env (pre ++ rest) acc
      = TypedService.deepInsertLoop env rest acc := by
  induction pre with
  | nil => rfl
  | cons p pres ih =>
      have h1 := hskip p (List.mem_cons_self p pres)
      simp only [List.cons_append, TypedService.deepInsertLoop,
        TypedService.deepInsertStep_skip env acc p h1, Res.bind_ok]
      exact ih (fun p2 hm => hskip p2 (List.mem_cons_of_mem p hm))

/-- With well-behaved sub-creates, a OneToMany navigation carried by the body
with a non-array value makes the `_deepInsert` loop reject (either at that
navigation or already at an earlier, equally misconfigured one). -/
theorem TypedService.deepInsertLoop_hits (env : Env) (nm : String) (opts : NavOptions)
    (hok : ∀ m b, ∃ w, env.serviceCreate m b = Except.ok w)
    (hone : opts.navType = NavType.OneToMany) :
    ∀ navs acc, (nm, opts) ∈ navs →
      (∀ p ∈ navs, p.1 = nm → p = (nm, opts)) →
      (∀ p ∈ navs, p.2.foreignKey ≠ nm) →
      acc.2.hasOwn nm = true →
      (acc.2.getProp nm).isArr = false →
      ∃ e, (TypedService.deepInsertLoop env navs acc).2 = Except.error e := by
  intro navs
  induction navs with
  | nil =>
      intro acc hmem
      simp at hmem
  | cons nav rest ih =>
      intro acc hmem huniq hfk hown hnarr
      by_cases heq : nav = (nm, opts)
      · subst heq
        have hstepfail : ∃ e2, TypedService.deepInsertStep env acc (nm, opts)
            = ([], Except.error e2) := by
          rw [TypedService.deepInsertStep]
          simp only [hown, if_true, hone]
          rcases hnd : acc.2.getProp nm with _ | _ | b | i | _ | s | xs | fs <;>
            simp only [hnd]
          all_goals try exact ⟨_, rfl⟩
          rw [hnd] at hnarr
          simp [JsVal.isArr] at hnarr
        obtain ⟨e2, hstep⟩ := hstepfail
        refine ⟨e2, ?_⟩
        simp only [TypedService.deepInsertLoop]
        rw [hstep]
        simp [Res.bind]
      · have hname : nav.1 ≠ nm := by
          intro h
          exact heq (huniq nav (List.mem_cons_self nav rest) h)
        have hfknav : nav.2.foreignKey ≠ nm := hfk nav (List.mem_cons_self nav rest)
        rcases hstep : TypedService.deepInsertStep env acc nav with ⟨tS, rS⟩
        cases rS with
        | error e2 =>
            refine ⟨e2, ?_⟩
            simp only [TypedService.deepInsertLoop]
            rw [hstep]
            simp [Res.bind]
        | ok acc2 =>
            obtain ⟨hg, ho⟩ := TypedService.deepInsertStep_preserves env acc nav nm
              hname hfknav tS acc2 hstep
            have hmem2 : (nm, opts) ∈ rest := by
              rcases List.mem_cons.mp hmem with h | h
              · exact absurd h.symm heq
              · exact h
            obtain ⟨e2, hres⟩ := ih acc2 hmem2
              (fun p hm hp => huniq p (List.mem_cons_of_mem nav hm) hp)
              (fun p hm => hfk p (List.mem_cons_of_mem nav hm))
              (by rw [ho]; exact hown)
              (by rw [hg]; exact hnarr)
            refine ⟨e2, ?_⟩
            simp only [TypedService.deepInsertLoop]
            rw [hstep]
            simpa [Res.bind] using hres

/-- **C7**: during deep insert inside `create`, `_deepInsert` throws
`ServerInternalError` in the two misconfiguration cases: a OneToMany
navigation present in the body whose value is not an array (first conjunct;
stated for well-behaved sub-creates and navigation/foreign-key names that do
not shadow the offending navigation, and the error may also come from an
earlier equally misconfigured navigation — it is always a
`ServerInternalError`); and a navigation of the default kind (other than
OneToMany/ManyToOne, modelled by `NavType.OneToOne`) whose configured
foreign key exists neither on the source entity type nor on the target
entity type — the thrown error names the unresolved foreign key (second
conjunct, stated at the first navigation carried by the body). -/
theorem deepInsert_server_errors (env : Env) (body : JsVal)
    (hok : ∀ m b, ∃ w, env.serviceCreate m b = Except.ok w) :
    (∀ nm opts, (nm, opts) ∈ env.navigations →
      opts.navType = NavType.OneToMany →
      (∀ p ∈ env.navigations, p.1 = nm → p = (nm, opts)) →
      (∀ p ∈ env.navigations, p.2.foreignKey ≠ nm) →
      body.hasOwn nm = true →
      (body.getProp nm).isArr = false →
      ∃ m, (TypedService.deepInsert env body).2 = Except.error (Err.serverInternal m))
    ∧ (∀ pre nm opts post, env.navigations = pre ++ (nm, opts) :: post →
        (∀ p ∈ pre, body.hasOwn p.1 = false) →
        opts.navType = NavType.OneToOne →
        body.hasOwn nm = true →
        env.hasField env.entityTypeName opts.foreignKey = false →
        env.hasField opts.entity opts.foreignKey = false →
        (TypedService.deepInsert env body).2
          = Except.error (Err.serverInternal
              ("fk " ++ opts.foreignKey ++ " not existed on entity " ++ env.entityTypeName
                ++ " or " ++ opts.entity))) := by
  constructor
  · intro nm opts hmem hone huniq hfk hown hnarr
    obtain ⟨e, he⟩ := TypedService.deepInsertLoop_hits env nm opts hok hone
      env.navigations (false, body) hmem huniq hfk hown hnarr
    obtain ⟨m, hm⟩ := TypedService.deepInsertLoop_err env env.navigations (false, body)
      hok e he
    refine ⟨m, ?_⟩
    rw [TypedService.deepInsert, he, hm]
  · intro pre nm opts post hnavs hskip hone hown hf1 hf2
    obtain ⟨w, hw⟩ := hok opts.entity (body.getProp nm)
    have hstep : TypedService.deepInsertStep env (false, body) (nm, opts)
        = ([Ev.subCreate opts.entity],
           Except.error (Err.serverInternal
             ("fk " ++ opts.foreignKey ++ " not existed on entity " ++ env.entityTypeName
               ++ " or " ++ opts.entity))) := by
      rw [TypedService.deepInsertStep]
      simp [hown, hone, hw, hf1, hf2, Res.bind, Res.emit, Res.liftE, Res.fail]
    rw [TypedService.deepInsert, hnavs,
      TypedService.deepInsertLoop_skip env pre ((nm, opts) :: post) (false, body) hskip]
    simp only [TypedService.deepInsertLoop]
    rw [hstep]
    simp [Res.bind]

/-- Witness for **C7**: in `env0` the `profile` navigation is of the default
kind and its foreign key `profileId` exists on neither entity, so a body
carrying `profile` makes `_deepInsert` throw the fk-not-existed
`ServerInternalError`. -/
theorem deepInsert_server_errors_witness :
    (TypedService.deepInsert env0 (JsVal.obj [("profile", JsVal.obj [])])).2
      = Except.error (Err.serverInternal
          "fk profileId not existed on entity Teacher or Profile") :=
  (deepInsert_server_errors env0 (JsVal.obj [("profile", JsVal.obj [])])
      (fun m b => ⟨b, rfl⟩)).2 []
    "profile" { navType := .OneToOne, entity := "Profile", foreignKey := "profileId" } []
    rfl (by simp) rfl rfl rfl rfl
